import Mathlib

/-!
Verification of the blink highlighting core (`core_highlight` and the
`highlight_range` boundary of `core_api`), shallowly embedded in Lean.
Syntax trees produced by the external grammar library are modelled as an
inductive tree type carrying, for each node, its kind tag, its field name
within its parent, its 0-based start and end positions, its source text
(for leaves) and its ordered children.
-/

namespace Blink

/-- Token categories, mirroring `core_types::TokenType`. -/
inductive TokenType where
  | keyword
  | string
  | comment
  | type
  | function
  | number
  | operator
  | punctuation
  | variable
  | plain
deriving DecidableEq, Repr

/-- Output unit, mirroring `core_types::TokenSpan`. -/
structure TokenSpan where
  line : Nat
  start_col : Nat
  end_col : Nat
  token_type : TokenType
deriving DecidableEq, Repr

/-- `is_comment_kind` from `core_highlight`. -/
def is_comment_kind (kind : String) : Bool :=
  ["comment", "line_comment", "block_comment", "html_comment"].contains kind

/-- `is_string_kind` from `core_highlight`. -/
def is_string_kind (kind : String) : Bool :=
  ["string", "string_fragment", "template_string", "template_literal_type",
   "interpreted_string_literal", "raw_string_literal", "char_literal",
   "escape_sequence"].contains kind

/-- `is_number_kind` from `core_highlight`. -/
def is_number_kind (kind : String) : Bool :=
  ["number", "integer", "float", "integer_literal", "float_literal",
   "hex_literal", "binary_literal", "octal_literal"].contains kind

/-- `is_keyword_kind` from `core_highlight`. -/
def is_keyword_kind (kind : String) : Bool :=
  ["if", "else", "for", "while", "do", "switch", "case", "default", "break",
   "continue", "return", "throw", "try", "catch", "finally", "new", "delete",
   "typeof", "instanceof", "in", "of", "void", "yield", "await", "async",
   "class", "extends", "super", "import", "export", "from", "as", "const",
   "let", "var", "function", "static", "get", "set", "this", "with",
   "debugger", "interface", "type", "enum", "implements", "public",
   "private", "protected", "readonly", "abstract", "declare", "namespace",
   "module", "keyof", "infer", "satisfies", "fn", "impl", "trait", "struct",
   "match", "mut", "pub", "where", "use", "mod", "crate", "self", "Self",
   "let_statement", "func", "protocol", "guard", "defer", "repeat", "inout",
   "operator", "subscript", "init", "deinit", "associatedtype", "some",
   "any", "extension", "enum_declaration", "class_declaration",
   "func_literal", "def", "lambda", "elif", "except", "pass", "raise",
   "global", "nonlocal", "del", "assert", "True", "False", "None", "null",
   "undefined", "true", "false"].contains kind

/-- `is_operator_kind` from `core_highlight`. -/
def is_operator_kind (kind : String) : Bool :=
  ["+", "-", "*", "/", "%", "=", "==", "===", "!=", "!==", "<", ">", "<=",
   ">=", "&&", "||", "!", "&", "|", "^", "~", "<<", ">>", ">>>", "+=", "-=",
   "*=", "/=", "%=", "**", "??", "?.", "=>", "...", "++", "--", "?", ":",
   "->", "::", "@", "#"].contains kind

/-- `is_punctuation_kind` from `core_highlight`. -/
def is_punctuation_kind (kind : String) : Bool :=
  ["(", ")", "[", "]", "\x7b", "\x7d", ";", ",", ".", "<", ">", "/",
   "\\"].contains kind

/-- `is_type_kind` from `core_highlight`. -/
def is_type_kind (kind : String) : Bool :=
  ["type_identifier", "predefined_type", "type_annotation",
   "type_alias_declaration", "primitive_type", "generic_type",
   "enum_variant", "tag_name"].contains kind

/-- `is_function_kind` from `core_highlight`. -/
def is_function_kind (kind parent_kind : String) : Bool :=
  ["function_item", "function_declaration", "function_definition",
   "method_definition", "method_declaration", "function_name",
   "constructor"].contains kind
  || (kind = "identifier"
      && ["function_declaration", "method_definition", "function_item",
          "call_expression"].contains parent_kind)
  || (kind = "property_identifier"
      && ["function_declaration", "method_definition"].contains parent_kind)

/-- `is_variable_kind` from `core_highlight`. -/
def is_variable_kind (kind parent_kind : String) : Bool :=
  ["identifier", "property_identifier", "field_identifier",
   "attribute_name", "property_name", "variable_name",
   "module_identifier"].contains kind
  || ["pair", "object_pair", "assignment_expression",
      "lexical_declaration"].contains parent_kind

/-- `classify_node` from `core_highlight`: maps a node kind and its
parent kind to a token category, applying the membership tests in the
source's order. -/
def classify_node (kind parent_kind : String) : TokenType :=
  if is_comment_kind kind then .comment
  else if is_string_kind kind then .string
  else if is_number_kind kind then .number
  else if is_keyword_kind kind then .keyword
  else if is_operator_kind kind then .operator
  else if is_punctuation_kind kind then .punctuation
  else if is_type_kind kind then .type
  else if is_function_kind kind parent_kind then .function
  else if is_variable_kind kind parent_kind then .variable
  else .plain

/-- A syntax-tree node as read by the core: kind tag, field name within
its parent (tree-sitter field, used for `child_by_field_name`), 0-based
start and end positions, UTF-8 source text (meaningful for leaves,
obtained in the source via `utf8_text`), and ordered children. -/
inductive Node where
  | mk (kind : String) (field : Option String) (srow scol erow ecol : Nat)
       (text : String) (children : List Node)

def Node.kind : Node → String
  | .mk k _ _ _ _ _ _ _ => k

def Node.field : Node → Option String
  | .mk _ f _ _ _ _ _ _ => f

def Node.srow : Node → Nat
  | .mk _ _ r _ _ _ _ _ => r

def Node.scol : Node → Nat
  | .mk _ _ _ c _ _ _ _ => c

def Node.erow : Node → Nat
  | .mk _ _ _ _ r _ _ _ => r

def Node.ecol : Node → Nat
  | .mk _ _ _ _ _ c _ _ => c

def Node.text : Node → String
  | .mk _ _ _ _ _ _ t _ => t

def Node.children : Node → List Node
  | .mk _ _ _ _ _ _ _ cs => cs

/-- Index of the first child carrying the field name `"function"`,
modelling `node.child_by_field_name("function")`. -/
def find_function_idx (cs : List Node) : Option Nat :=
  cs.findIdx? (fun c => c.field = some "function")

/-- Splitting a character list at every occurrence of `sep`, keeping
empty pieces, as Rust's `str::split(char)` does (`"".split` yields one
empty piece; a trailing separator yields a trailing empty piece). -/
def splitChar (sep : Char) : List Char → List (List Char)
  | [] => [[]]
  | c :: cs =>
    match splitChar sep cs with
    | [] => [[]]
    | g :: gs => if c = sep then [] :: g :: gs else (c :: g) :: gs

/-- The fragments of a leaf's text, modelling `text.split('\n')`. -/
def split_newlines (text : String) : List (List Char) :=
  splitChar '\n' text.data

/-- Byte length of a fragment, modelling Rust's `str::len`. -/
def utf8_len : List Char → Nat
  | [] => 0
  | c :: cs => c.utf8Size + utf8_len cs

/-- The multi-line leaf path of `collect_tokens` (lines 81-94 of
`core_highlight`): walk the `'\n'`-separated fragments with their index,
skip empty fragments, and emit one span per non-empty fragment with the
recomputed line and columns (`end_col` adds the fragment's byte
length). -/
def multiline_spans (srow scol : Nat) (tt : TokenType) :
    Nat → List (List Char) → List TokenSpan
  | _, [] => []
  | i, frag :: rest =>
    (if frag = [] then []
     else [⟨srow + i + 1, if i = 0 then scol else 0,
            (if i = 0 then scol else 0) + utf8_len frag, tt⟩])
    ++ multiline_spans srow scol tt (i + 1) rest

mutual

/-- `collect_tokens` from `core_highlight`, with the parent's kind tag
passed explicitly (the source reads it back from `node.parent()`, with
`""` for the root). Returns the emitted spans in order. -/
def collect_tokens (parent_kind : String) : Node → List TokenSpan
  | .mk kind _ srow scol erow ecol text children =>
    if children.isEmpty then
      if srow ≠ erow then
        multiline_spans srow scol (classify_node kind parent_kind) 0
          (split_newlines text)
      else
        [⟨srow + 1, scol, ecol, classify_node kind parent_kind⟩]
    else if kind = "call_expression" then
      match find_function_idx children with
      | some i =>
        match children.get? i with
        | some f =>
          if f.children.isEmpty then
            ⟨f.srow + 1, f.scol, f.ecol, .function⟩
              :: collect_except kind i 0 children
          else
            collect_list kind children
        | none => collect_list kind children
      | none => collect_list kind children
    else
      collect_list kind children

/-- The generic child loop of `collect_tokens` (lines 131-134). -/
def collect_list (parent_kind : String) : List Node → List TokenSpan
  | [] => []
  | c :: cs => collect_tokens parent_kind c ++ collect_list parent_kind cs

/-- The call-expression child loop of `collect_tokens` (lines 120-125):
recurse into every child except the one at index `skip` (the callee,
identified in the source by `child.id() != func_node.id()`). -/
def collect_except (parent_kind : String) (skip : Nat) :
    Nat → List Node → List TokenSpan
  | _, [] => []
  | i, c :: cs =>
    (if i = skip then [] else collect_tokens parent_kind c)
      ++ collect_except parent_kind skip (i + 1) cs

end

/-- The text after the last `'.'` of a path (the whole path when it has
no `'.'`), modelling `path.rsplit('.').next()` — which always yields a
piece, so the `?` in the source never aborts. -/
def extOf (path : String) : String :=
  ⟨(path.data.reverse.takeWhile (fun c => c ≠ '.')).reverse⟩

/-- ASCII lowercasing of one character, as in `to_ascii_lowercase`. -/
def ascii_lower (c : Char) : Char :=
  if 'A' ≤ c && c ≤ 'Z' then Char.ofNat (c.toNat + 32) else c

/-- ASCII lowercasing of a string, as in `str::to_ascii_lowercase`. -/
def lower_string (s : String) : String :=
  ⟨s.data.map ascii_lower⟩

/-- The extension table of `detect_language` (the `match` on
`ext.as_str()`). -/
def ext_lookup (ext : String) : Option String :=
  match ext with
  | "ts" | "tsx" => some "typescript"
  | "js" | "jsx" | "mjs" | "cjs" => some "javascript"
  | "json" => some "json"
  | "yaml" | "yml" => some "yaml"
  | "swift" => some "swift"
  | "rs" => some "rust"
  | "dart" => some "dart"
  | "html" | "htm" => some "html"
  | "css" => some "css"
  | "py" => some "python"
  | _ => none

/-- `detect_language` from `core_highlight`. -/
def detect_language (path : String) : Option String :=
  ext_lookup (lower_string (extOf path))

/-- Outcomes of the external grammar library, as seen by `tokenize`:
`set_language lang` is `some errMsg` when loading the grammar for
`lang` fails, `none` when it succeeds; `parse text` is the parsed
tree's root node, or `none` on parse failure. -/
structure GrammarEnv where
  set_language : String → Option String
  parse : String → Option Node

/-- The language identifiers `tokenize` has a grammar arm for. -/
def supported_languages : List String :=
  ["typescript", "javascript", "json", "yaml", "swift", "rust", "dart",
   "html", "css", "python"]

/-- The per-language prefix of the `set_language` error messages in
`tokenize`. -/
def set_language_error_text : String → String
  | "typescript" => "TypeScript パーサー設定エラー: "
  | "javascript" => "JavaScript パーサー設定エラー: "
  | "json" => "JSON パーサー設定エラー: "
  | "yaml" => "YAML パーサー設定エラー: "
  | "swift" => "Swift パーサー設定エラー: "
  | "rust" => "Rust パーサー設定エラー: "
  | "dart" => "Dart パーサー設定エラー: "
  | "html" => "HTML パーサー設定エラー: "
  | "css" => "CSS パーサー設定エラー: "
  | "python" => "Python パーサー設定エラー: "
  | _ => ""

/-- `tokenize` from `core_highlight`, over an abstract `GrammarEnv`:
an unsupported language is an error; a grammar-load error and a parse
failure are errors; otherwise the root is walked by `collect_tokens`
(the source's recursion starts with the root's parent kind, `""`). -/
def tokenize (env : GrammarEnv) (text language : String) :
    Except String (List TokenSpan) :=
  if supported_languages.contains language then
    match env.set_language language with
    | some e => .error (set_language_error_text language ++ e)
    | none =>
      match env.parse text with
      | none => .error "パースに失敗しました"
      | some root => .ok (collect_tokens "" root)
  else
    .error ("未対応の言語: " ++ language)

/-- The line filter of `highlight_range` (`t.line >= start_line &&
t.line <= end_line`). -/
def filter_range (tokens : List TokenSpan) (start_line end_line : Nat) :
    List TokenSpan :=
  tokens.filter (fun t => start_line ≤ t.line && t.line ≤ end_line)

/-- External collaborators of `highlight_range`: the file reader and
the grammar library. -/
structure ApiEnv where
  read_file : String → Except String String
  grammar : GrammarEnv

/-- `highlight_range` from `core_api`: resolve the language (`none`
succeeds with an empty sequence), read the file, tokenize, and filter
to the requested inclusive line range. -/
def highlight_range (env : ApiEnv) (path : String)
    (start_line end_line : Nat) : Except String (List TokenSpan) :=
  match detect_language path with
  | none => .ok []
  | some language =>
    match env.read_file path with
    | .error e => .error e
    | .ok content =>
      match tokenize env.grammar content language with
      | .error e => .error e
      | .ok tokens => .ok (filter_range tokens start_line end_line)


lemma collect_tokens_leaf_single (p k f srow scol ecol t : _) :
    collect_tokens p (.mk k f srow scol srow ecol t [])
      = [⟨srow + 1, scol, ecol, classify_node k p⟩] := by
  simp [collect_tokens]

lemma collect_tokens_leaf_multi (p k f srow scol erow ecol t : _)
    (h : srow ≠ erow) :
    collect_tokens p (.mk k f srow scol erow ecol t [])
      = multiline_spans srow scol (classify_node k p) 0 (split_newlines t) := by
  simp [collect_tokens, h]

lemma collect_tokens_generic (p k f srow scol erow ecol t : _)
    (c : Node) (cs : List Node) (hk : k ≠ "call_expression") :
    collect_tokens p (.mk k f srow scol erow ecol t (c :: cs))
      = collect_list k (c :: cs) := by
  simp [collect_tokens, hk]

lemma collect_except_shift (k : String) (skip : Nat) (cs : List Node) :
    ∀ i, collect_except k (skip + 1) (i + 1) cs = collect_except k skip i cs := by
  induction cs with
  | nil => intro i; simp [collect_except]
  | cons c cs ih =>
    intro i
    simp only [collect_except, Nat.add_right_cancel_iff]
    rw [ih (i + 1)]

lemma collect_except_gt (k : String) (skip : Nat) (cs : List Node) :
    ∀ i, skip < i → collect_except k skip i cs = collect_list k cs := by
  induction cs with
  | nil => intro i _; simp [collect_except, collect_list]
  | cons c cs ih =>
    intro i hi
    have hne : i ≠ skip := by omega
    simp only [collect_except, collect_list, hne, if_neg, if_false]
    rw [ih (i + 1) (by omega)]

lemma collect_except_eq_eraseIdx (k : String) (cs : List Node) :
    ∀ i, collect_except k i 0 cs = collect_list k (cs.eraseIdx i) := by
  induction cs with
  | nil => intro i; simp [collect_except, collect_list, List.eraseIdx]
  | cons c cs ih =>
    intro i
    cases i with
    | zero =>
      simp only [collect_except, List.eraseIdx]
      rw [collect_except_gt k 0 cs 1 (by omega)]
      simp
    | succ j =>
      simp only [collect_except, List.eraseIdx, collect_list]
      rw [collect_except_shift k j cs 0, ih j]
      simp


lemma collect_tokens_call_leaf (p f srow scol erow ecol t : _)
    (cs : List Node) (hcs : cs ≠ []) (i : Nat) (fn : Node)
    (hfind : find_function_idx cs = some i) (hget : cs.get? i = some fn)
    (hleaf : fn.children = []) :
    collect_tokens p (.mk "call_expression" f srow scol erow ecol t cs)
      = ⟨fn.srow + 1, fn.scol, fn.ecol, .function⟩
          :: collect_list "call_expression" (cs.eraseIdx i) := by
  cases cs with
  | nil => simp at hcs
  | cons c cs =>
    simp only [collect_tokens, hfind, hget, hleaf, List.isEmpty_cons,
      List.isEmpty_nil, if_true, if_false, Bool.false_eq_true, ite_false]
    rw [collect_except_eq_eraseIdx]

lemma collect_tokens_call_nonleaf (p f srow scol erow ecol t : _)
    (cs : List Node) (hcs : cs ≠ []) (i : Nat) (fn : Node)
    (hfind : find_function_idx cs = some i) (hget : cs.get? i = some fn)
    (hleaf : fn.children ≠ []) :
    collect_tokens p (.mk "call_expression" f srow scol erow ecol t cs)
      = collect_list "call_expression" cs := by
  cases cs with
  | nil => simp at hcs
  | cons c cs =>
    have hmt : fn.children.isEmpty = false := by
      simp [List.isEmpty_iff, hleaf]
    simp only [collect_tokens, hfind, hget, hmt, List.isEmpty_cons,
      Bool.false_eq_true, if_false, ite_false, ite_self]


lemma utf8_len_pos (frag : List Char) (h : frag ≠ []) : 0 < utf8_len frag := by
  cases frag with
  | nil => simp at h
  | cons c cs =>
    have := Char.utf8Size_pos c
    simp [utf8_len]
    omega

lemma multiline_spans_eq_enumFrom (srow scol : Nat) (tt : TokenType)
    (frags : List (List Char)) :
    ∀ i, multiline_spans srow scol tt i frags
      = (frags.enumFrom i).filterMap (fun q =>
          if q.2 = [] then none
          else some ⟨srow + q.1 + 1, if q.1 = 0 then scol else 0,
                     (if q.1 = 0 then scol else 0) + utf8_len q.2, tt⟩) := by
  induction frags with
  | nil => intro i; simp [multiline_spans]
  | cons frag rest ih =>
    intro i
    simp only [multiline_spans, List.enumFrom, List.filterMap_cons]
    by_cases h : frag = []
    · simp [h, ih (i + 1)]
    · simp [h, ih (i + 1)]


lemma collect_tokens_call_nofind (p f srow scol erow ecol t : _)
    (c : Node) (cs : List Node)
    (hfind : find_function_idx (c :: cs) = none) :
    collect_tokens p (.mk "call_expression" f srow scol erow ecol t (c :: cs))
      = collect_list "call_expression" (c :: cs) := by
  simp only [collect_tokens, hfind, List.isEmpty_cons, Bool.false_eq_true,
    if_false, ite_false, ite_self]

lemma collect_tokens_call_noget (p f srow scol erow ecol t : _)
    (c : Node) (cs : List Node) (i : Nat)
    (hfind : find_function_idx (c :: cs) = some i)
    (hget : (c :: cs).get? i = none) :
    collect_tokens p (.mk "call_expression" f srow scol erow ecol t (c :: cs))
      = collect_list "call_expression" (c :: cs) := by
  simp only [collect_tokens, hfind, hget, List.isEmpty_cons, Bool.false_eq_true,
    if_false, ite_false, ite_self]

/-- The condition a span emitted by the extractor is claimed to satisfy:
positive width and a 1-based line. -/
def span_ok (s : TokenSpan) : Prop :=
  s.start_col < s.end_col ∧ 1 ≤ s.line

/-- Modelled from the spec: well-formedness of the trees handed to the
extractor by the external grammar library (spec section 3: a leaf
corresponds to exactly one lexical token, so a single-line leaf has
positive width; a call expression's distinguished callee leaf is a
single identifier token, hence single-line). -/
inductive SpanWF : Node → Prop where
  | leaf : ∀ k f srow scol erow ecol t,
      (srow = erow → scol < ecol) →
      SpanWF (.mk k f srow scol erow ecol t [])
  | node : ∀ k f srow scol erow ecol t cs, cs ≠ [] →
      (k = "call_expression" → ∀ i fn, find_function_idx cs = some i →
        cs.get? i = some fn → fn.children = [] → fn.srow = fn.erow) →
      (∀ c, c ∈ cs → SpanWF c) →
      SpanWF (.mk k f srow scol erow ecol t cs)

lemma multiline_spans_ok (srow scol : Nat) (tt : TokenType)
    (frags : List (List Char)) :
    ∀ i s, s ∈ multiline_spans srow scol tt i frags → span_ok s := by
  induction frags with
  | nil => intro i s hs; simp [multiline_spans] at hs
  | cons frag rest ih =>
    intro i s hs
    simp only [multiline_spans, List.mem_append] at hs
    rcases hs with hs | hs
    · by_cases h : frag = []
      · simp [h] at hs
      · simp only [h, if_false, List.mem_singleton, ite_false] at hs
        subst hs
        exact ⟨Nat.lt_add_of_pos_right (utf8_len_pos frag h),
          Nat.le_add_left 1 _⟩
    · exact ih (i + 1) s hs

lemma mem_collect_list (k : String) (cs : List Node) (s : TokenSpan) :
    s ∈ collect_list k cs → ∃ c, c ∈ cs ∧ s ∈ collect_tokens k c := by
  induction cs with
  | nil => intro h; simp [collect_list] at h
  | cons c cs ih =>
    intro h
    simp only [collect_list, List.mem_append] at h
    rcases h with h | h
    · exact ⟨c, by simp, h⟩
    · obtain ⟨d, hd, hs⟩ := ih h
      exact ⟨d, by simp [hd], hs⟩

lemma collect_tokens_ok (t : Node) (h : SpanWF t) :
    ∀ p s, s ∈ collect_tokens p t → span_ok s := by
  induction h with
  | leaf k f srow scol erow ecol txt hle =>
    intro p s hs
    by_cases hr : srow = erow
    · subst hr
      rw [collect_tokens_leaf_single] at hs
      simp only [List.mem_singleton] at hs
      subst hs
      exact ⟨hle rfl, Nat.le_add_left 1 _⟩
    · rw [collect_tokens_leaf_multi p k f srow scol erow ecol txt hr] at hs
      exact multiline_spans_ok srow scol _ _ 0 s hs
  | node k f srow scol erow ecol txt cs hne hcall hwf ih =>
    intro p s hs
    have from_list : s ∈ collect_list k cs → span_ok s := by
      intro hl
      obtain ⟨c, hc, hsc⟩ := mem_collect_list k cs s hl
      exact ih c hc k s hsc
    obtain ⟨c, cs', rfl⟩ : ∃ c cs', cs = c :: cs' := by
      cases cs with
      | nil => simp at hne
      | cons c cs' => exact ⟨c, cs', rfl⟩
    by_cases hk : k = "call_expression"
    · subst hk
      cases hfind : find_function_idx (c :: cs') with
      | none =>
        rw [collect_tokens_call_nofind p f srow scol erow ecol txt c cs'
          hfind] at hs
        exact from_list hs
      | some i =>
        cases hget : (c :: cs').get? i with
        | none =>
          rw [collect_tokens_call_noget p f srow scol erow ecol txt c cs' i
            hfind hget] at hs
          exact from_list hs
        | some fn =>
          by_cases hl : fn.children = []
          · rw [collect_tokens_call_leaf p f srow scol erow ecol txt
              (c :: cs') (by simp) i fn hfind hget hl] at hs
            rcases List.mem_cons.mp hs with rfl | hs
            · have hmem : fn ∈ c :: cs' := List.get?_mem hget
              have hrow : fn.srow = fn.erow := hcall rfl i fn hfind hget hl
              have hwfn := hwf fn hmem
              cases hwfn with
              | leaf k' f' srow' scol' erow' ecol' t' hle =>
                exact ⟨hle hrow, Nat.le_add_left 1 _⟩
              | node k' f' srow' scol' erow' ecol' t' cs'' hne'' =>
                exact absurd hl hne''
            · obtain ⟨d, hd, hsd⟩ := mem_collect_list _ _ _ hs
              have hd' : d ∈ c :: cs' :=
                (List.eraseIdx_sublist (c :: cs') i).mem hd
              exact ih d hd' _ s hsd
          · rw [collect_tokens_call_nonleaf p f srow scol erow ecol txt
              (c :: cs') (by simp) i fn hfind hget hl] at hs
            exact from_list hs
    · rw [collect_tokens_generic p k f srow scol erow ecol txt c cs' hk] at hs
      exact from_list hs


/-- Modelled from the spec: a tree certainly emitting at least one span
(spec section 8 expects the parse of non-empty source to produce
tokens). It holds as soon as some leaf lies on a single line, or some
leaf's text has a fragment with a character besides `'\n'`. -/
inductive HasEmitter : Node → Prop where
  | leaf_single : ∀ k f srow scol ecol t,
      HasEmitter (.mk k f srow scol srow ecol t [])
  | leaf_frag : ∀ k f srow scol erow ecol t, srow ≠ erow →
      (∃ frag, frag ∈ split_newlines t ∧ frag ≠ []) →
      HasEmitter (.mk k f srow scol erow ecol t [])
  | child : ∀ k f srow scol erow ecol t cs c, c ∈ cs → HasEmitter c →
      HasEmitter (.mk k f srow scol erow ecol t cs)

lemma multiline_spans_ne_nil (srow scol : Nat) (tt : TokenType)
    (frags : List (List Char)) :
    ∀ i, (∃ frag, frag ∈ frags ∧ frag ≠ []) →
      multiline_spans srow scol tt i frags ≠ [] := by
  induction frags with
  | nil => intro i h; obtain ⟨frag, hm, _⟩ := h; simp at hm
  | cons frag rest ih =>
    intro i h
    obtain ⟨g, hm, hg⟩ := h
    simp only [multiline_spans]
    rcases List.mem_cons.mp hm with rfl | hm
    · simp [hg]
    · intro hc
      rcases List.append_eq_nil.mp hc with ⟨-, h2⟩
      exact ih (i + 1) ⟨g, hm, hg⟩ h2

lemma collect_list_ne_nil (k : String) (cs : List Node) (c : Node)
    (hc : c ∈ cs) (h : collect_tokens k c ≠ []) :
    collect_list k cs ≠ [] := by
  induction cs with
  | nil => simp at hc
  | cons d ds ih =>
    simp only [collect_list]
    intro hnil
    rcases List.append_eq_nil.mp hnil with ⟨h1, h2⟩
    rcases List.mem_cons.mp hc with rfl | hm
    · exact h h1
    · exact ih hm h2

lemma collect_tokens_ne_nil (t : Node) (h : HasEmitter t) :
    ∀ p, collect_tokens p t ≠ [] := by
  induction h with
  | leaf_single k f srow scol ecol txt =>
    intro p
    rw [collect_tokens_leaf_single]
    simp
  | leaf_frag k f srow scol erow ecol txt hr hfrag =>
    intro p
    rw [collect_tokens_leaf_multi p k f srow scol erow ecol txt hr]
    exact multiline_spans_ne_nil srow scol _ _ 0 hfrag
  | child k f srow scol erow ecol txt cs c hc hemit ih =>
    intro p
    obtain ⟨d, ds, rfl⟩ : ∃ d ds, cs = d :: ds := by
      cases cs with
      | nil => simp at hc
      | cons d ds => exact ⟨d, ds, rfl⟩
    by_cases hk : k = "call_expression"
    · subst hk
      cases hfind : find_function_idx (d :: ds) with
      | none =>
        rw [collect_tokens_call_nofind p f srow scol erow ecol txt d ds hfind]
        exact collect_list_ne_nil _ _ c hc (ih _)
      | some i =>
        cases hget : (d :: ds).get? i with
        | none =>
          rw [collect_tokens_call_noget p f srow scol erow ecol txt d ds i
            hfind hget]
          exact collect_list_ne_nil _ _ c hc (ih _)
        | some fn =>
          by_cases hl : fn.children = []
          · rw [collect_tokens_call_leaf p f srow scol erow ecol txt
              (d :: ds) (by simp) i fn hfind hget hl]
            simp
          · rw [collect_tokens_call_nonleaf p f srow scol erow ecol txt
              (d :: ds) (by simp) i fn hfind hget hl]
            exact collect_list_ne_nil _ _ c hc (ih _)
    · rw [collect_tokens_generic p k f srow scol erow ecol txt d ds hk]
      exact collect_list_ne_nil _ _ c hc (ih _)


lemma detect_supported (p lang : String) (h : detect_language p = some lang) :
    supported_languages.contains lang = true := by
  unfold detect_language ext_lookup at h
  split at h <;> simp_all <;> subst h <;> decide

lemma takeWhile_all {P : Char → Bool} :
    ∀ l : List Char, (∀ c ∈ l, P c = true) → l.takeWhile P = l := by
  intro l h
  induction l with
  | nil => rfl
  | cons c cs ih =>
    rw [List.takeWhile_cons_of_pos (h c (by simp))]
    rw [ih (fun d hd => h d (by simp [hd]))]

lemma takeWhile_all_append {P : Char → Bool} :
    ∀ l1 l2 : List Char, (∀ c ∈ l1, P c = true) →
      (l1 ++ l2).takeWhile P = l1 ++ l2.takeWhile P := by
  intro l1 l2 h
  induction l1 with
  | nil => simp
  | cons c cs ih =>
    rw [List.cons_append, List.takeWhile_cons_of_pos (h c (by simp))]
    rw [ih (fun d hd => h d (by simp [hd]))]
    simp

lemma extOf_no_dot (p : String) (h : ∀ c ∈ p.data, c ≠ '.') : extOf p = p := by
  unfold extOf
  rw [takeWhile_all p.data.reverse (fun c hc => by
    simp only [decide_eq_true_eq]
    exact h c (List.mem_reverse.mp hc))]
  rw [List.reverse_reverse]

lemma extOf_append (p e : String) (h : ∀ c ∈ e.data, c ≠ '.') :
    extOf (p ++ "." ++ e) = e := by
  unfold extOf
  have hdata : (p ++ "." ++ e).data = p.data ++ '.' :: e.data := by
    simp [String.data_append]
  rw [hdata]
  rw [show (p.data ++ '.' :: e.data).reverse
        = e.data.reverse ++ '.' :: p.data.reverse by simp]
  rw [takeWhile_all_append e.data.reverse ('.' :: p.data.reverse) (fun c hc => by
    simp only [decide_eq_true_eq]
    exact h c (List.mem_reverse.mp hc))]
  rw [List.takeWhile_cons_of_neg (by simp)]
  simp


/-- Modelled from the spec: the tree the grammar provider returns for
empty source text (spec sections 2 and 6: `parse` yields a concrete
syntax tree covering the text; for empty text this is a bare childless
root spanning the empty range). -/
def empty_root : Node := .mk "program" none 0 0 0 0 "" []

/-- Modelled from the spec: the tree for the non-empty source
`"\n"` — a childless root covering the whole text, whose extent ends at
the start of the second line. -/
def newline_root : Node := .mk "program" none 0 0 1 0 "\n" []

/-- A grammar environment whose loading always succeeds and whose
parser returns the empty tree. -/
def empty_parse_env : GrammarEnv :=
  { set_language := fun _ => none, parse := fun _ => some empty_root }

/-- C1, counterexample: extracting from the empty tree (the parse of
empty source text) does not yield an empty token sequence — the
childless root is treated as a leaf and emits a span. -/
theorem c1_empty_tree_emits : collect_tokens "" empty_root ≠ [] := by decide

/-- C1 (amended): the token extractor never fails — whenever the
grammar loads and the parser yields a tree, `tokenize` returns `ok`
with the extracted sequence — but extracting from the empty tree
yields one zero-width Plain span on line 1, not an empty sequence. -/
theorem c1_extract_total :
    (∀ (env : GrammarEnv) (text lang : String) (root : Node),
      supported_languages.contains lang = true →
      env.set_language lang = none →
      env.parse text = some root →
      tokenize env text lang = .ok (collect_tokens "" root)) ∧
    collect_tokens "" empty_root = [⟨1, 0, 0, .plain⟩] := by
  constructor
  · intro env text lang root hsup hset hparse
    have hmem : lang ∈ supported_languages := by simpa using hsup
    simp [tokenize, hmem, hset, hparse]
  · decide

/-- C1 witness: the amended theorem applied to a concrete environment
parsing empty source into the empty tree. -/
theorem c1_extract_total_witness :
    tokenize empty_parse_env "" "javascript"
      = .ok (collect_tokens "" empty_root) :=
  c1_extract_total.1 empty_parse_env "" "javascript" empty_root
    (by decide) rfl rfl

/-- C2, counterexample: the retained-span invariant fails as stated —
the zero-width span emitted for the empty tree's childless root has
`end_col = start_col` — and tokenizing the non-empty source `"\n"`
(whose tree is a childless root spanning only a newline) yields an
empty sequence. -/
theorem c2_invariant_fails_on_empty_tree :
    ((collect_tokens "" empty_root).all
      (fun s => s.start_col < s.end_col)) = false
    ∧ collect_tokens "" newline_root = [] := by decide

/-- C2 (amended): every span retained by the extractor satisfies
`end_col > start_col` and `line ≥ 1` for every well-formed tree (all
single-line leaves have positive width and call-expression callee
leaves are single-line — zero-width leaves such as the empty parse's
root are excluded); and the output is non-empty whenever the tree has
a single-line leaf or a leaf containing a non-newline character. -/
theorem c2_span_invariant :
    ∀ (t : Node) (p : String),
      (SpanWF t → ∀ s ∈ collect_tokens p t,
        s.start_col < s.end_col ∧ 1 ≤ s.line) ∧
      (HasEmitter t → collect_tokens p t ≠ []) := by
  intro t p
  constructor
  · intro h s hs
    exact collect_tokens_ok t h p s hs
  · intro h
    exact collect_tokens_ne_nil t h p

/-- C2 witness: the amended invariant applied to a concrete well-formed
single-leaf tree and its emitted span. -/
theorem c2_span_invariant_witness :
    ((2 : Nat) < 5 ∧ (1 : Nat) ≤ 1) ∧
      collect_tokens "x" (Node.mk "identifier" none 0 2 0 5 "foo" []) ≠ [] :=
  ⟨(c2_span_invariant (Node.mk "identifier" none 0 2 0 5 "foo" []) "x").1
      (SpanWF.leaf _ _ _ _ _ _ _ (fun _ => by decide))
      ⟨1, 2, 5, TokenType.variable⟩ (by decide),
    (c2_span_invariant (Node.mk "identifier" none 0 2 0 5 "foo" []) "x").2
      (HasEmitter.leaf_single _ _ _ _ _ _)⟩


/-- Modelled from the spec: the callee leaf of the JavaScript parse of
`"foo(1)"` (spec section 8's call-expression test case), carried in the
tree's distinguished `function` field. -/
def foo_callee : Node := .mk "identifier" (some "function") 0 0 0 3 "foo" []

/-- Modelled from the spec: the argument list of the parse of
`"foo(1)"`. -/
def foo_args : Node :=
  .mk "arguments" (some "arguments") 0 3 0 6 "(1)"
    [.mk "(" none 0 3 0 4 "(" [],
     .mk "number" none 0 4 0 5 "1" [],
     .mk ")" none 0 5 0 6 ")" []]

/-- Modelled from the spec: the call-expression node of the parse of
`"foo(1)"`. -/
def foo_call : Node :=
  .mk "call_expression" none 0 0 0 6 "foo(1)" [foo_callee, foo_args]

/-- Modelled from the spec: the full JavaScript parse tree of
`"foo(1)"`. -/
def foo_tree : Node :=
  .mk "program" none 0 0 0 6 "foo(1)"
    [.mk "expression_statement" none 0 0 0 6 "foo(1)" [foo_call]]

/-- C3: on a call-expression node whose distinguished `function`-field
child is a leaf, the extractor emits exactly one Function span for the
callee and then recurses into the remaining children in order (the
callee is erased from the recursion, so it is visited exactly once);
when the callee is not a leaf the node is traversed generically; and
the parse of `"foo(1)"` yields a Function span at columns 0-3 for
`foo` and a Number span for `1`. -/
theorem c3_call_expression_special_case :
    (∀ (p : String) (f : Option String) (srow scol erow ecol : Nat)
       (t : String) (cs : List Node) (i : Nat) (fn : Node),
      cs ≠ [] → find_function_idx cs = some i → cs.get? i = some fn →
      fn.children = [] →
      collect_tokens p (.mk "call_expression" f srow scol erow ecol t cs)
        = ⟨fn.srow + 1, fn.scol, fn.ecol, .function⟩
            :: collect_list "call_expression" (cs.eraseIdx i)) ∧
    (∀ (p : String) (f : Option String) (srow scol erow ecol : Nat)
       (t : String) (cs : List Node) (i : Nat) (fn : Node),
      cs ≠ [] → find_function_idx cs = some i → cs.get? i = some fn →
      fn.children ≠ [] →
      collect_tokens p (.mk "call_expression" f srow scol erow ecol t cs)
        = collect_list "call_expression" cs) ∧
    collect_tokens "" foo_tree
      = [⟨1, 0, 3, .function⟩, ⟨1, 3, 4, .punctuation⟩,
         ⟨1, 4, 5, .number⟩, ⟨1, 5, 6, .punctuation⟩] := by
  refine ⟨?_, ?_, by decide⟩
  · intro p f srow scol erow ecol t cs i fn hcs hfind hget hleaf
    exact collect_tokens_call_leaf p f srow scol erow ecol t cs hcs i fn
      hfind hget hleaf
  · intro p f srow scol erow ecol t cs i fn hcs hfind hget hleaf
    exact collect_tokens_call_nonleaf p f srow scol erow ecol t cs hcs i fn
      hfind hget hleaf

/-- C3 witness: the special case applied to the concrete call node of
`"foo(1)"`. -/
theorem c3_call_expression_witness :
    collect_tokens "expression_statement" foo_call
      = ⟨1, 0, 3, .function⟩ :: collect_list "call_expression" [foo_args] :=
  c3_call_expression_special_case.1 "expression_statement" none 0 0 0 6
    "foo(1)" [foo_callee, foo_args] 0 foo_callee (by simp) (by decide)
    rfl rfl

/-- C4: a leaf whose start and end lines differ is split on newline
boundaries; each non-empty fragment at offset `i` yields one span at
`line = start_line + i`, whose `start_col` is the leaf's column for the
first fragment and 0 otherwise, and whose `end_col` adds the fragment's
byte length; empty fragments yield no span. -/
theorem c4_multiline_split :
    ∀ (p k : String) (f : Option String) (srow scol erow ecol : Nat)
      (t : String), srow ≠ erow →
      collect_tokens p (.mk k f srow scol erow ecol t [])
        = (split_newlines t).enum.filterMap (fun q =>
            if q.2 = [] then none
            else some ⟨srow + q.1 + 1, if q.1 = 0 then scol else 0,
                       (if q.1 = 0 then scol else 0) + utf8_len q.2,
                       classify_node k p⟩) := by
  intro p k f srow scol erow ecol t h
  rw [collect_tokens_leaf_multi p k f srow scol erow ecol t h]
  rw [multiline_spans_eq_enumFrom]
  rfl

/-- C4 witness: the split applied to a concrete two-line comment leaf
whose text ends in a newline (the trailing empty fragment is
dropped). -/
theorem c4_multiline_split_witness :
    collect_tokens "x" (Node.mk "comment" none 2 4 4 0 "ab\ncc\n" [])
      = (split_newlines "ab\ncc\n").enum.filterMap (fun q =>
          if q.2 = [] then none
          else some ⟨2 + q.1 + 1, if q.1 = 0 then 4 else 0,
                     (if q.1 = 0 then 4 else 0) + utf8_len q.2,
                     classify_node "comment" "x"⟩) :=
  c4_multiline_split "x" "comment" none 2 4 4 0 "ab\ncc\n" (by decide)

/-- C5: the classifier applies its membership tests in the fixed
priority order Comment, String, Number, Keyword, Operator,
Punctuation, Type, Function, Variable, then the Plain fallback, so the
earliest matching category wins and every input maps to exactly one
category. -/
theorem c5_classifier_priority :
    ∀ kind parent : String,
      (is_comment_kind kind = true →
        classify_node kind parent = .comment) ∧
      (is_comment_kind kind = false → is_string_kind kind = true →
        classify_node kind parent = .string) ∧
      (is_comment_kind kind = false → is_string_kind kind = false →
        is_number_kind kind = true →
        classify_node kind parent = .number) ∧
      (is_comment_kind kind = false → is_string_kind kind = false →
        is_number_kind kind = false → is_keyword_kind kind = true →
        classify_node kind parent = .keyword) ∧
      (is_comment_kind kind = false → is_string_kind kind = false →
        is_number_kind kind = false → is_keyword_kind kind = false →
        is_operator_kind kind = true →
        classify_node kind parent = .operator) ∧
      (is_comment_kind kind = false → is_string_kind kind = false →
        is_number_kind kind = false → is_keyword_kind kind = false →
        is_operator_kind kind = false → is_punctuation_kind kind = true →
        classify_node kind parent = .punctuation) ∧
      (is_comment_kind kind = false → is_string_kind kind = false →
        is_number_kind kind = false → is_keyword_kind kind = false →
        is_operator_kind kind = false → is_punctuation_kind kind = false →
        is_type_kind kind = true →
        classify_node kind parent = .type) ∧
      (is_comment_kind kind = false → is_string_kind kind = false →
        is_number_kind kind = false → is_keyword_kind kind = false →
        is_operator_kind kind = false → is_punctuation_kind kind = false →
        is_type_kind kind = false → is_function_kind kind parent = true →
        classify_node kind parent = .function) ∧
      (is_comment_kind kind = false → is_string_kind kind = false →
        is_number_kind kind = false → is_keyword_kind kind = false →
        is_operator_kind kind = false → is_punctuation_kind kind = false →
        is_type_kind kind = false → is_function_kind kind parent = false →
        is_variable_kind kind parent = true →
        classify_node kind parent = .variable) ∧
      (is_comment_kind kind = false → is_string_kind kind = false →
        is_number_kind kind = false → is_keyword_kind kind = false →
        is_operator_kind kind = false → is_punctuation_kind kind = false →
        is_type_kind kind = false → is_function_kind kind parent = false →
        is_variable_kind kind parent = false →
        classify_node kind parent = .plain) := by
  intro kind parent
  refine ⟨?_, ?_, ?_, ?_, ?_, ?_, ?_, ?_, ?_, ?_⟩ <;>
    (intros; simp_all [classify_node])

/-- C5 witness: `"<"` belongs to both the Operator and the Punctuation
tables; the earlier Operator check wins. -/
theorem c5_classifier_priority_witness :
    is_operator_kind "<" = true ∧ is_punctuation_kind "<" = true ∧
      classify_node "<" "x" = .operator :=
  ⟨by decide, by decide,
    (c5_classifier_priority "<" "x").2.2.2.2.1 (by decide) (by decide)
      (by decide) (by decide) (by decide)⟩


/-- C6: for bounds with `start_line ≤ end_line` the range filter keeps
exactly the tokens whose line lies in the inclusive range and is a
sublist of the input (so relative order is preserved); filtering by
`[L, L]` keeps only spans on line `L`; and filtering by a range
containing every line of the sequence is the identity. -/
theorem c6_range_filter :
    ∀ (tokens : List TokenSpan) (s e L : Nat),
      (s ≤ e → (filter_range tokens s e).Sublist tokens ∧
        (∀ t : TokenSpan, t ∈ filter_range tokens s e ↔
          t ∈ tokens ∧ s ≤ t.line ∧ t.line ≤ e)) ∧
      (∀ t ∈ filter_range tokens L L, t.line = L) ∧
      ((∀ t ∈ tokens, s ≤ t.line ∧ t.line ≤ e) →
        filter_range tokens s e = tokens) := by
  intro tokens s e L
  refine ⟨fun _ => ⟨List.filter_sublist tokens, fun t => ?_⟩, ?_, ?_⟩
  · simp [filter_range, List.mem_filter, and_assoc]
  · intro t ht
    have := (List.mem_filter.mp ht).2
    simp only [Bool.and_eq_true, decide_eq_true_eq] at this
    omega
  · intro h
    apply List.filter_eq_self.mpr
    intro t ht
    have := h t ht
    simp only [Bool.and_eq_true, decide_eq_true_eq]
    omega

/-- C6 witness: the filter applied to a concrete two-line sequence with
the full range and a sublist check. -/
theorem c6_range_filter_witness :
    (filter_range [⟨1, 0, 1, .plain⟩, ⟨2, 0, 1, .keyword⟩] 1 2).Sublist
        [⟨1, 0, 1, .plain⟩, ⟨2, 0, 1, .keyword⟩] ∧
      filter_range [⟨1, 0, 1, .plain⟩, ⟨2, 0, 1, .keyword⟩] 1 2
        = [⟨1, 0, 1, .plain⟩, ⟨2, 0, 1, .keyword⟩] :=
  ⟨((c6_range_filter [⟨1, 0, 1, .plain⟩, ⟨2, 0, 1, .keyword⟩] 1 2 1).1
      (by decide)).1,
    (c6_range_filter [⟨1, 0, 1, .plain⟩, ⟨2, 0, 1, .keyword⟩] 1 2 1).2.2
      (by decide)⟩

/-- An API environment whose file reads succeed with empty content but
whose grammar loading always fails. -/
def failing_grammar_env : ApiEnv :=
  { read_file := fun _ => .ok ""
    grammar := { set_language := fun _ => some "boom"
                 parse := fun _ => none } }

/-- C7: when the language resolver returns `none`, `highlight_range`
succeeds with the empty sequence; when the path resolves to a known
language whose grammar fails to load (and the file reads fine), it
returns an error — so the two empty-looking outcomes are
distinguishable in the error channel. -/
theorem c7_error_channel :
    ∀ (env : ApiEnv) (path : String) (s e : Nat) (lang content err : String),
      (detect_language path = none →
        highlight_range env path s e = .ok []) ∧
      (detect_language path = some lang → env.read_file path = .ok content →
        env.grammar.set_language lang = some err →
        highlight_range env path s e
            = .error (set_language_error_text lang ++ err) ∧
          ∀ l : List TokenSpan, highlight_range env path s e ≠ .ok l) := by
  intro env path s e lang content err
  constructor
  · intro h
    simp [highlight_range, h]
  · intro hd hr hs
    have hsup := detect_supported path lang hd
    have hmem : lang ∈ supported_languages := by simpa using hsup
    have heq : highlight_range env path s e
        = .error (set_language_error_text lang ++ err) := by
      simp [highlight_range, hd, hr, tokenize, hmem, hs]
    exact ⟨heq, fun l hl => by rw [heq] at hl; cases hl⟩

/-- C7 witness: a path with no recognized extension succeeds with the
empty sequence, while `"a.rs"` under a failing grammar loader yields
the Rust grammar-load error. -/
theorem c7_error_channel_witness :
    highlight_range failing_grammar_env "nodot" 1 2 = .ok [] ∧
      highlight_range failing_grammar_env "a.rs" 1 2
        = .error "Rust パーサー設定エラー: boom" :=
  ⟨(c7_error_channel failing_grammar_env "nodot" 1 2 "x" "" "").1 (by decide),
    ((c7_error_channel failing_grammar_env "a.rs" 1 2 "rust" "" "boom").2
      (by decide) rfl rfl).1⟩

/-- Modelled from the spec: the Python parse of `"foo(1)"` — the call
construct's kind tag is `"call"`, not `"call_expression"`, with the
callee identifier in the `function` field and the arguments in an
`argument_list`. -/
def py_call : Node :=
  .mk "call" none 0 0 0 6 "foo(1)"
    [.mk "identifier" (some "function") 0 0 0 3 "foo" [],
     .mk "argument_list" (some "arguments") 0 3 0 6 "(1)"
       [.mk "(" none 0 3 0 4 "(" [],
        .mk "integer" none 0 4 0 5 "1" [],
        .mk ")" none 0 5 0 6 ")" []]]

/-- C8: the call special case fires exactly for the kind tag
`"call_expression"` with a leaf `function` child — its head span is the
Function span for the callee — while a node of any other kind tag (for
example Python's `"call"`) is traversed generically, its callee
classified by the generic classifier as Variable. -/
theorem c8_call_kind_exact_match :
    (∀ (p k : String) (f : Option String) (srow scol erow ecol : Nat)
       (t : String) (c : Node) (cs : List Node), k ≠ "call_expression" →
      collect_tokens p (.mk k f srow scol erow ecol t (c :: cs))
        = collect_list k (c :: cs)) ∧
    (∀ (p : String) (f : Option String) (srow scol erow ecol : Nat)
       (t : String) (cs : List Node) (i : Nat) (fn : Node),
      cs ≠ [] → find_function_idx cs = some i → cs.get? i = some fn →
      fn.children = [] →
      (collect_tokens p
          (.mk "call_expression" f srow scol erow ecol t cs)).head?
        = some ⟨fn.srow + 1, fn.scol, fn.ecol, .function⟩) ∧
    collect_tokens "" py_call
      = [⟨1, 0, 3, .variable⟩, ⟨1, 3, 4, .punctuation⟩,
         ⟨1, 4, 5, .number⟩, ⟨1, 5, 6, .punctuation⟩] ∧
    classify_node "identifier" "call" = .variable := by
  refine ⟨?_, ?_, by decide, by decide⟩
  · intro p k f srow scol erow ecol t c cs hk
    exact collect_tokens_generic p k f srow scol erow ecol t c cs hk
  · intro p f srow scol erow ecol t cs i fn hcs hfind hget hleaf
    rw [collect_tokens_call_leaf p f srow scol erow ecol t cs hcs i fn
      hfind hget hleaf]
    rfl

/-- C8 witness: the special case's head span on the concrete
`"foo(1)"` call node, and the generic traversal of the Python call
node. -/
theorem c8_call_kind_exact_match_witness :
    (collect_tokens "expression_statement" foo_call).head?
        = some ⟨1, 0, 3, .function⟩ ∧
      collect_tokens "module" py_call
        = collect_list "call"
            ((Node.mk "identifier" (some "function") 0 0 0 3 "foo" [])
              :: [Node.mk "argument_list" (some "arguments") 0 3 0 6 "(1)"
                   [.mk "(" none 0 3 0 4 "(" [],
                    .mk "integer" none 0 4 0 5 "1" [],
                    .mk ")" none 0 5 0 6 ")" []]]) :=
  ⟨c8_call_kind_exact_match.2.1 "expression_statement" none 0 0 0 6 "foo(1)"
      [foo_callee, foo_args] 0 foo_callee (by simp) (by decide) rfl rfl,
    c8_call_kind_exact_match.1 "module" "call" none 0 0 0 6 "foo(1)"
      (Node.mk "identifier" (some "function") 0 0 0 3 "foo" [])
      [Node.mk "argument_list" (some "arguments") 0 3 0 6 "(1)"
        [.mk "(" none 0 3 0 4 "(" [],
         .mk "integer" none 0 4 0 5 "1" [],
         .mk ")" none 0 5 0 6 ")" []]] (by decide)⟩


/-- An API environment whose reads succeed with empty content and whose
grammar collaborators succeed, parsing everything to the empty tree. -/
def ok_env : ApiEnv :=
  { read_file := fun _ => .ok "", grammar := empty_parse_env }

/-- C9: an inverted range (`start_line > end_line`) is not an error:
whenever `highlight_range` succeeds it returns the empty sequence,
since no token's line can lie in the empty inclusive range. -/
theorem c9_inverted_range_empty :
    ∀ (env : ApiEnv) (path : String) (s e : Nat) (l : List TokenSpan),
      e < s → highlight_range env path s e = .ok l → l = [] := by
  intro env path s e l h hres
  simp only [highlight_range] at hres
  split at hres
  · exact (Except.ok.inj hres).symm
  · split at hres
    · cases hres
    · split at hres
      · cases hres
      · have hfe : filter_range _ s e = l := Except.ok.inj hres
        rw [← hfe]
        apply List.filter_eq_nil_iff.mpr
        intro t ht
        simp only [Bool.and_eq_true, decide_eq_true_eq, not_and]
        omega

/-- C9 witness: the theorem applied to a concrete succeeding
environment with the inverted range `[2, 1]`. -/
theorem c9_inverted_range_empty_witness :
    (1 : Nat) < 2 ∧ ([] : List TokenSpan) = [] :=
  ⟨by decide,
    c9_inverted_range_empty ok_env "a.rs" 2 1 [] (by decide) rfl⟩

/-- C10: the language detector looks at the text after the last `'.'`
of the path — the whole path when there is no `'.'` — lowercased, so
the dotless path `"rs"` resolves to Rust rather than to `none`. -/
theorem c10_extension_of_dotless_path :
    (∀ p : String, (∀ c ∈ p.data, c ≠ '.') →
      detect_language p = ext_lookup (lower_string p)) ∧
    (∀ p e : String, (∀ c ∈ e.data, c ≠ '.') →
      detect_language (p ++ "." ++ e) = ext_lookup (lower_string e)) ∧
    detect_language "rs" = some "rust" ∧
    detect_language "Main.RS" = some "rust" ∧
    detect_language "no_extension" = none := by
  refine ⟨?_, ?_, by decide, by decide, by decide⟩
  · intro p h
    unfold detect_language
    rw [extOf_no_dot p h]
  · intro p e h
    unfold detect_language
    rw [extOf_append p e h]

/-- C10 witness: the dotless case applied to the concrete path
`"rs"`. -/
theorem c10_extension_of_dotless_path_witness :
    detect_language "rs" = ext_lookup (lower_string "rs") :=
  c10_extension_of_dotless_path.1 "rs" (by decide)

end Blink
